import Mathlib

/-!
# Verification of the `split_data.py` aggregation engine

A shallow embedding of the aggregation engine of `split_data.py`:
per-snapshot pay calculation, classification-exclusion tracking,
per-date payroll statistics, peer-cohort percentile ranking, and the
COLA (cost-of-living adjustment) eligibility evaluation.

Modelling conventions:
* Python floats are embedded as `ℚ` (all arithmetic in the engine is
  exact `+ - * /` on finite decimal inputs).
* JSON string fields that the code only ever reads through the
  falsiness idiom (`x or ""`, `if x:`) are embedded as `String`, with
  `""` standing for both an absent field and a JSON `null`: every code
  path touched here treats the two identically.
* Raw JSON scalar values fed to `parse_float` are embedded as
  `Option RawVal` (`none` = absent/`null`).
* Python dicts used as accumulators are embedded as total functions
  with pointwise functional update; dict lookup with default is
  `Option.getD`.
-/

namespace SplitData

/-- A raw JSON scalar as it can reach `parse_float`: a number or a string. -/
inductive RawVal where
  | num (q : ℚ)
  | str (s : String)
deriving DecidableEq, Repr

/-- One position within a snapshot (a `Jobs` list entry). -/
structure Job where
  annualSalaryRate : Option RawVal
  salaryTerm : String
  apptPercent : Option RawVal
  jobOrgn : String
  jobTitle : String
deriving DecidableEq, Repr

/-- One point-in-time employment record (`Date`, `Source`, `Jobs`);
`""` for an absent date or source, `[]` for absent jobs. -/
structure Snapshot where
  date : String
  source : String
  jobs : List Job
deriving DecidableEq, Repr

/-- One employee: an (unsorted, as loaded) timeline of snapshots. -/
structure Person where
  timeline : List Snapshot
deriving DecidableEq, Repr

/-- A dataset: the loaded employees (the order of `data.items()`). -/
abbrev Dataset := List Person

/-! ## `parse_float`: the numeric normalizer (`split_data.py` lines 26-37) -/

/-- Characters kept by the regex `[^0-9.-]+` substitution: digits, `.`, `-`. -/
def keptChar (c : Char) : Bool :=
  (('0' ≤ c ∧ c ≤ '9') : Bool) || c = '.' || c = '-'

/-- `_NON_NUMERIC_RE.sub("", s)`: drop every character that is not a
digit, `.`, or `-`. -/
def stripNonNumeric (s : String) : String :=
  ⟨s.data.filter keptChar⟩

/-- Is `c` an ASCII digit? -/
def isDigitChar (c : Char) : Bool := '0' ≤ c ∧ c ≤ '9'

/-- Value of a digit list read most-significant first. -/
def digitsVal (l : List Char) : ℕ :=
  l.foldl (fun a c => 10 * a + (c.toNat - '0'.toNat)) 0

/-- Parse an unsigned Python float literal made only of digits and `.`
(the only shapes `float()` can still accept after `stripNonNumeric`):
`d+`, `d+.d*`, or `.d+`.  Any stray `-` or second `.` is a parse
failure, as in Python. -/
def parseUnsigned (l : List Char) : Option ℚ :=
  match l.splitOn '.' with
  | [intPart] =>
      if intPart ≠ [] ∧ intPart.all isDigitChar then
        some (digitsVal intPart)
      else none
  | [intPart, fracPart] =>
      if (intPart ≠ [] ∨ fracPart ≠ []) ∧ intPart.all isDigitChar ∧
          fracPart.all isDigitChar then
        some ((digitsVal intPart : ℚ) +
          (digitsVal fracPart : ℚ) / (10 : ℚ) ^ fracPart.length)
      else none
  | _ => none

/-- Python `float(cleaned)` on a string of digits, `.`, `-`:
one optional leading `-`, then an unsigned literal. -/
def pyFloat (s : String) : Option ℚ :=
  match s.data with
  | '-' :: rest => (parseUnsigned rest).map (fun q => -q)
  | l => parseUnsigned l

/-- `parse_float` (`split_data.py` lines 26-37): numbers pass through,
strings are stripped to digits/`.`/`-` and parsed; empty-after-cleaning
or unparsable means absent (`none`). -/
def parse_float : Option RawVal → Option ℚ
  | none => none
  | some (.num q) => some q
  | some (.str s) =>
      let cleaned := stripNonNumeric s
      if cleaned = "" then none else pyFloat cleaned

/-- Python's `x or 0.0` on an optional float: `None` and `0.0` both
collapse to `0.0`, so this is `getD 0`. -/
def orZero (o : Option ℚ) : ℚ := o.getD 0

/-! ## Pay calculation (`split_data.py` lines 40-62) -/

/-- The `rate_num is not None and rate_num > 0 and rate_num <= 12` test
of line 45. -/
def moRange (rate_num : Option ℚ) : Bool :=
  match rate_num with
  | some r => decide (0 < r) && decide (r ≤ 12)
  | none => false

/-- `calc_job_rate_and_missing` (lines 40-51): effective rate,
appointment percent, and the mis-coded-monthly flag.  A `"mo"` salary
term with a parsed rate in `(0, 12]` zeroes the rate and flags
`missing`. -/
def calc_job_rate_and_missing (job : Job) : ℚ × ℚ × Bool :=
  let rate_num := parse_float job.annualSalaryRate
  let term := job.salaryTerm.trim
  let pct := orZero (parse_float job.apptPercent)
  if term = "mo" ∧ moRange rate_num then
    (0, pct, true)
  else
    (orZero rate_num, pct, false)

/-- `calculate_snapshot_pay` (lines 54-62): sum of
`rate * (pct / 100)` over the jobs whose effective rate is positive. -/
def calculate_snapshot_pay (snap : Snapshot) : ℚ :=
  snap.jobs.foldl (fun total job =>
    let rpm := calc_job_rate_and_missing job
    if rpm.1 > 0 then total + rpm.1 * (rpm.2.1 / 100) else total) 0

/-- The pay contribution of a single job, as a standalone function. -/
def jobContribution (job : Job) : ℚ :=
  let rpm := calc_job_rate_and_missing job
  if rpm.1 > 0 then rpm.1 * (rpm.2.1 / 100) else 0

/-! ## Classification from the `Source` text -/

/-- Does `s` contain `pat` as a contiguous sublist?  (Python's
`pat in s` on strings.) -/
def listHasSub (pat : List Char) : List Char → Bool
  | [] => pat.isEmpty
  | c :: rest => pat.isPrefixOf (c :: rest) || listHasSub pat rest

/-- `"unclass" in (source or "").lower()` (lines 167, 241); Python's
`str.lower` is per-character case mapping. -/
def srcIsUnclass (src : String) : Bool :=
  listHasSub "unclass".data (src.data.map Char.toLower)

/-! ## String comparison

Python compares strings lexicographically by code point.  We embed
that order as an executable Boolean compare on the character lists
(it agrees with Mathlib's linear order on `String`, see `strLe_iff`
below). -/

/-- Lexicographic `≤` on character lists. -/
def charListLe : List Char → List Char → Bool
  | [], _ => true
  | _ :: _, [] => false
  | a :: as, b :: bs =>
      if a < b then true else if b < a then false else charListLe as bs

/-- Python's `s1 <= s2` on strings. -/
def strLe (a b : String) : Bool := charListLe a.data b.data

/-! ## Timeline sorting (line 144: `timeline.sort(key=lambda s: s.get("Date") or "")`) -/

/-- Order on snapshots used by the in-place sort: by date string. -/
def dateLe (a b : Snapshot) : Prop := strLe a.date b.date = true

instance : DecidableRel dateLe :=
  fun a b => inferInstanceAs (Decidable (strLe a.date b.date = true))

/-- The state of `person["Timeline"]` after the in-place stable sort by
date (line 144); everything downstream walks this list.
(`List.insertionSort` is stable, like Python's `list.sort`.) -/
def sortTimeline (tl : List Snapshot) : List Snapshot :=
  List.insertionSort dateLe tl

/-! ## Exclusion tracking (`split_data.py` lines 158-178, 240-242, 277-278) -/

/-- Loop state of the classification walk: the previous snapshot's
status (`none` before the first snapshot), whether the first snapshot
was classified (`none` before it is seen), the sticky excluded flag,
and the recorded first exclusion date (`""` = unset, mirroring the
falsiness test `if not first_exclusion_date`). -/
structure ExclState where
  prevIsUnclass : Option Bool
  startedClassified : Option Bool
  wasExcluded : Bool
  firstExclusionDate : String
deriving DecidableEq, Repr

def exclInit : ExclState :=
  { prevIsUnclass := none, startedClassified := none,
    wasExcluded := false, firstExclusionDate := "" }

/-- One iteration of the walk for the exclusion bookkeeping
(lines 167-176, 238). -/
def exclStep (st : ExclState) (snap : Snapshot) : ExclState :=
  let isU := srcIsUnclass snap.source
  let started := match st.startedClassified with
    | none => !isU
    | some b => b
  let hit := st.prevIsUnclass = some false ∧ isU = true ∧ started = true
  { prevIsUnclass := some isU,
    startedClassified := some started,
    wasExcluded := st.wasExcluded || decide hit,
    firstExclusionDate :=
      if hit ∧ st.firstExclusionDate = "" then snap.date
      else st.firstExclusionDate }

/-- The exclusion walk over one (sorted) timeline. -/
def exclWalk (tl : List Snapshot) : ExclState := tl.foldl exclStep exclInit

/-- Classification of the final snapshot (lines 240-242; `false` for an
empty timeline, matching the `is_unclass = False` initialisation). -/
def lastIsUnclass (tl : List Snapshot) : Bool :=
  match tl.getLast? with
  | some s => srcIsUnclass s.source
  | none => false

/-- `_wasExcluded` as emitted (lines 277, 285):
`was_excluded and is_unclass`. -/
def reportedWasExcluded (tl : List Snapshot) : Bool :=
  (exclWalk tl).wasExcluded && lastIsUnclass tl

/-- `_exclusionDate` as emitted (lines 278, 286):
`first_exclusion_date if (was_excluded and is_unclass) else ""`. -/
def reportedExclusionDate (tl : List Snapshot) : String :=
  if (exclWalk tl).wasExcluded && lastIsUnclass tl then
    (exclWalk tl).firstExclusionDate
  else ""

/-! ## Claim-side transition searches

Straightforward recursions over adjacent snapshot pairs expressing the
spec's "classified → unclassified transition" notions; compared with
the walk's accumulator in the exclusion theorems. -/

/-- Is there a classified→unclassified step, given the previous
status? -/
def existsTransitionFrom (prev : Bool) : List Snapshot → Bool
  | [] => false
  | s :: rest =>
      (!prev && srcIsUnclass s.source)
        || existsTransitionFrom (srcIsUnclass s.source) rest

/-- Is there any classified→unclassified transition in the timeline? -/
def existsTransition : List Snapshot → Bool
  | [] => false
  | s :: rest => existsTransitionFrom (srcIsUnclass s.source) rest

/-- The date of the first classified→unclassified transition whose
snapshot has a non-empty date (`""` when there is none). -/
def firstDatedTransitionFrom (prev : Bool) : List Snapshot → String
  | [] => ""
  | s :: rest =>
      if (!prev && srcIsUnclass s.source) = true ∧ s.date ≠ "" then s.date
      else firstDatedTransitionFrom (srcIsUnclass s.source) rest

/-- `firstDatedTransitionFrom` started at the first snapshot. -/
def firstDatedTransitionDate : List Snapshot → String
  | [] => ""
  | s :: rest => firstDatedTransitionFrom (srcIsUnclass s.source) rest

/-- The date of the first classified→unclassified transition,
whatever it is (the claim's "date of the first such transition"). -/
def firstTransitionFrom (prev : Bool) : List Snapshot → Option String
  | [] => none
  | s :: rest =>
      if (!prev && srcIsUnclass s.source) = true then some s.date
      else firstTransitionFrom (srcIsUnclass s.source) rest

/-- `firstTransitionFrom` started at the first snapshot. -/
def firstTransitionDate : List Snapshot → Option String
  | [] => none
  | s :: rest => firstTransitionFrom (srcIsUnclass s.source) rest

/-- Was the first snapshot classified? (`false` for an empty
timeline, where the walk leaves `started_classified = None`.) -/
def startedClassifiedOf : List Snapshot → Bool
  | [] => false
  | s :: _ => !srcIsUnclass s.source

/-! ## COLA events and date-pair construction (`split_data.py` lines 9-14, 88-107) -/

/-- A configured raise event (`COLA_EVENTS` entries). -/
structure ColaEvent where
  label : String
  effective : String
  pct : ℚ
deriving DecidableEq, Repr

/-- The hard-coded event list (lines 9-13). -/
def COLA_EVENTS : List ColaEvent :=
  [⟨"6.5% COLA", "2024-04-01", 6.5⟩,
   ⟨"2% COLA", "2024-11-01", 2.0⟩,
   ⟨"3.5% COLA", "2025-06-01", 3.5⟩]

/-- `COLA_TOLERANCE_PCT` (line 14). -/
def COLA_TOLERANCE_PCT : ℚ := 0.4

/-- A per-event date pair as produced by `build_cola_pairs`. -/
structure ColaPair where
  label : String
  effective : String
  pct : ℚ
  beforeDate : Option String
  afterDate : Option String
deriving DecidableEq, Repr

/-- Body of the date scan (lines 95-99): `before` is overwritten by
every date `≤ effective`; `after` is set once by the first date
`≥ effective`. -/
def scanStep (eff : String) (ba : Option String × Option String)
    (d : String) : Option String × Option String :=
  (if strLe d eff then some d else ba.1,
   if ba.2 = none ∧ strLe eff d = true then some d else ba.2)

/-- The full scan of all observed dates for one event. -/
def scanBeforeAfter (eff : String) (dates : List String) :
    Option String × Option String :=
  dates.foldl (scanStep eff) (none, none)

/-- `build_cola_pairs` (lines 88-107). -/
def build_cola_pairs (dates : List String) (events : List ColaEvent) :
    List ColaPair :=
  if dates = [] then []
  else events.map fun e =>
    let ba := scanBeforeAfter e.effective dates
    { label := e.label, effective := e.effective, pct := e.pct,
      beforeDate := ba.1, afterDate := ba.2 }

/-! ## Global observed dates (`snapshot_dates`, lines 133, 163-165, 332) -/

/-- `sorted(snapshot_dates)`: the distinct non-empty snapshot dates of
the whole dataset, in ascending order. -/
def observedDates (data : Dataset) : List String :=
  List.insertionSort (fun a b : String => strLe a b = true)
    ((((data.flatMap fun p => sortTimeline p.timeline).map
        Snapshot.date).filter (· ≠ "")).dedup)

/-! ## Per-employee pay-by-date map (`snap_by_date_pay`, lines 147, 198-199) -/

/-- The dict `snap_by_date_pay`: fold of keyed overwrites over the
sorted timeline, skipping snapshots without a date. -/
def payByDate (tl : List Snapshot) : String → Option ℚ :=
  tl.foldl
    (fun m snap =>
      if snap.date = "" then m
      else fun d =>
        if d = snap.date then some (calculate_snapshot_pay snap) else m d)
    (fun _ => none)

/-! ## COLA evaluation (`split_data.py` lines 331-369) -/

/-- Per-employee accumulator of the event loop
(`cola_received`, `cola_checked`, `cola_missed`). -/
structure ColaOutcome where
  received : Bool
  checked : ℕ
  missed : List String
deriving DecidableEq, Repr

def colaInit : ColaOutcome := ⟨false, 0, []⟩

/-- One iteration of the event loop (lines 348-364); `pay` is the
employee's `snap_by_date_pay` with `.get(d, 0.0)` lookups. -/
def colaStep (pay : String → Option ℚ) (st : ColaOutcome)
    (p : ColaPair) : ColaOutcome :=
  match p.beforeDate, p.afterDate with
  | some bd, some ad =>
    if bd = "" ∨ ad = "" then st
    else if bd = ad then st
    else
      let bp := (pay bd).getD 0
      let ap := (pay ad).getD 0
      if bp ≤ 0 then st
      else
        let change := ((ap - bp) / bp) * 100
        if change ≥ p.pct - COLA_TOLERANCE_PCT then
          { received := true, checked := st.checked + 1,
            missed := st.missed }
        else
          { received := st.received, checked := st.checked + 1,
            missed := st.missed ++ [p.label] }
  | _, _ => st

/-- The whole event loop for one employee. -/
def evalCola (pay : String → Option ℚ) (pairs : List ColaPair) :
    ColaOutcome :=
  pairs.foldl (colaStep pay) colaInit

/-- The four `_cola*` index fields. -/
structure ColaFields where
  received : Bool
  checked : ℕ
  missed : List String
  missing : Bool
deriving DecidableEq, Repr

/-- Lines 366-369: store the loop outcome and
`_colaMissing = (not cola_received and cola_checked > 0)`. -/
def colaFinalize (r : ColaOutcome) : ColaFields :=
  ⟨r.received, r.checked, r.missed,
    !r.received && decide (r.checked > 0)⟩

/-- Final per-employee COLA fields (lines 333-369): unclassified
employees are exempt with the fixed record; everyone else gets the
event-loop outcome and `missing = !received && checked > 0`. -/
def colaFieldsFor (isUnclass : Bool) (pay : String → Option ℚ)
    (pairs : List ColaPair) : ColaFields :=
  if isUnclass then ⟨true, 0, [], false⟩
  else colaFinalize (evalCola pay pairs)

/-- The emitted COLA fields of one employee of the dataset. -/
def personColaFields (data : Dataset) (p : Person) : ColaFields :=
  let tl := sortTimeline p.timeline
  colaFieldsFor (lastIsUnclass tl) (payByDate tl)
    (build_cola_pairs (observedDates data) COLA_EVENTS)

/-- The evaluation guard of lines 349-357: the pair has both dates
truthy, they differ, and the employee's baseline pay is positive. -/
def colaQualifies (pay : String → Option ℚ) (p : ColaPair) : Bool :=
  match p.beforeDate, p.afterDate with
  | some bd, some ad =>
      decide (bd ≠ "") && decide (ad ≠ "") && decide (bd ≠ ad) &&
        decide (0 < (pay bd).getD 0)
  | _, _ => false

/-! ## Per-date stats and peer-cohort buckets
(`split_data.py` lines 201-225; `split-data-stats-map-bench.py`) -/

/-- One row of the benchmark's flattened input (`load_rows`):
`(date, is_unclass, snap_pay, peer_key)`, one per dated snapshot of a
sorted timeline. -/
abbrev Row := String × Bool × ℚ × Option String

/-- One `stats_map` value (lines 204-211). -/
structure StatsRow where
  date : String
  classified : ℕ
  unclassified : ℕ
  payroll : ℚ
  payrollClassified : ℚ
  payrollUnclassified : ℚ
deriving DecidableEq, Repr

/-- The fresh entry created on first sight of a date (lines 204-211). -/
def emptyStatsRow (d : String) : StatsRow := ⟨d, 0, 0, 0, 0, 0⟩

/-- One `stats_map` fold step (lines 203-218 /
`current_stats_only` body). -/
def statsUpdate (m : String → Option StatsRow) (r : Row) :
    String → Option StatsRow :=
  let entry := (m r.1).getD (emptyStatsRow r.1)
  let entry' :=
    if r.2.1 then
      { entry with
        unclassified := entry.unclassified + 1
        payroll := entry.payroll + r.2.2.1
        payrollUnclassified := entry.payrollUnclassified + r.2.2.1 }
    else
      { entry with
        classified := entry.classified + 1
        payroll := entry.payroll + r.2.2.1
        payrollClassified := entry.payrollClassified + r.2.2.1 }
  fun d => if d = r.1 then some entry' else m d

/-- One `peer_buckets` fold step (lines 220-225 /
`if peer_key: peer_buckets[date][peer_key].append(snap_pay)`). -/
def peerUpdate (b : String → String → List ℚ) (r : Row) :
    String → String → List ℚ :=
  match r.2.2.2 with
  | none => b
  | some key => fun d k =>
      if d = r.1 ∧ k = key then b d k ++ [r.2.2.1] else b d k

/-- The stats-only pass (`current_stats_only`). -/
def statsOnlyPass (rows : List Row) : String → Option StatsRow :=
  rows.foldl statsUpdate (fun _ => none)

/-- The cohort-only pass (the `peer_buckets` part alone). -/
def peersOnlyPass (rows : List Row) : String → String → List ℚ :=
  rows.foldl peerUpdate (fun _ _ => [])

/-- The fused pass (`current_stats_and_peers` / main's single loop):
both accumulators updated in the same traversal. -/
def fusedPass (rows : List Row) :
    (String → Option StatsRow) × (String → String → List ℚ) :=
  rows.foldl (fun st r => (statsUpdate st.1 r, peerUpdate st.2 r))
    ((fun _ => none), (fun _ _ => []))

/-- The peer-cohort key of a snapshot's primary (first) job
(lines 220-224): absent organisation/title default to `"Unknown"`. -/
def peerKeyOf (snap : Snapshot) : Option String :=
  match snap.jobs with
  | [] => none
  | pj :: _ =>
      some ((if pj.jobOrgn = "" then "Unknown" else pj.jobOrgn) ++ "||" ++
        (if pj.jobTitle = "" then "Unknown" else pj.jobTitle))

/-- The flattened rows of a dataset (`load_rows` / the dated snapshots
main's loop feeds to stats and buckets, in traversal order). -/
def rowsOf (data : Dataset) : List Row :=
  (data.flatMap fun p => sortTimeline p.timeline).filterMap fun snap =>
    if snap.date = "" then none
    else some (snap.date, srcIsUnclass snap.source,
      calculate_snapshot_pay snap, peerKeyOf snap)

/-- The program's `peer_buckets` at the end of phase 1. -/
def peerBuckets (data : Dataset) : String → String → List ℚ :=
  peersOnlyPass (rowsOf data)

/-! ## Peer percentile (`split_data.py` lines 289-323) -/

/-- The in-place `values.sort()` of line 296: every cohort list is
ascending before medians/percentiles are read. -/
def sortedCohort (data : Dataset) (date key : String) : List ℚ :=
  List.insertionSort (fun a b : ℚ => a ≤ b) (peerBuckets data date key)

/-- `bisect.bisect_left` on an ascending list: the number of leading
elements `< x`. -/
def bisect_left (l : List ℚ) (x : ℚ) : ℕ :=
  (l.takeWhile fun v => decide (v < x)).length

/-- `bisect.bisect_right` on an ascending list: the number of leading
elements `≤ x`. -/
def bisect_right (l : List ℚ) (x : ℚ) : ℕ :=
  (l.takeWhile fun v => decide (v ≤ x)).length

/-- `_peerPercentile` for one employee (lines 299-323): from the last
sorted snapshot's cohort only; `none` when the timeline is empty, the
last snapshot has no jobs, the cohort has at most one member, or the
employee's own last pay is not positive. -/
def peerPercentile (data : Dataset) (p : Person) : Option ℚ :=
  let tl := sortTimeline p.timeline
  match tl.getLast? with
  | none => none
  | some last =>
    match last.jobs with
    | [] => none
    | pj :: _ =>
      let key := (if pj.jobOrgn = "" then "Unknown" else pj.jobOrgn) ++
        "||" ++ (if pj.jobTitle = "" then "Unknown" else pj.jobTitle)
      let lastPay := calculate_snapshot_pay last
      let bucket := sortedCohort data last.date key
      if bucket.length ≤ 1 ∨ lastPay ≤ 0 then none
      else
        let below := bisect_left bucket lastPay
        let equal := bisect_right bucket lastPay - below
        some ((((below : ℚ) + 0.5 * (equal : ℚ)) / (bucket.length : ℚ)) * 100)

/-- The cohort-lookup-and-rank core of the percentile read, as a
function of the last snapshot's date, peer key (`none` when it has no
jobs) and pay: `peerPercentile` factors through it (see
`peerPercentile_eq_key`). -/
def percentileOfKey (data : Dataset) (date : String)
    (key? : Option String) (pay : ℚ) : Option ℚ :=
  match key? with
  | none => none
  | some key =>
    let bucket := sortedCohort data date key
    if bucket.length ≤ 1 ∨ pay ≤ 0 then none
    else
      let below := bisect_left bucket pay
      let equal := bisect_right bucket pay - below
      some ((((below : ℚ) + 0.5 * (equal : ℚ)) / (bucket.length : ℚ)) * 100)

/-! ## Concrete fixtures used by witnesses and counterexamples -/

/-- A classified full-time job at 50000. -/
def wJob1 : Job := ⟨some (.num 50000), "", some (.num 100), "Org", "Title"⟩

/-- The same job after a 7% raise (53500). -/
def wJob2 : Job := ⟨some (.num 53500), "", some (.num 100), "Org", "Title"⟩

def wSnap1 : Snapshot := ⟨"2024-03-01", "Classified", [wJob1]⟩

def wSnap2 : Snapshot := ⟨"2024-05-01", "Classified", [wJob2]⟩

/-- A classified employee observed before and after the first COLA. -/
def wPerson : Person := ⟨[wSnap1, wSnap2]⟩

/-- A one-employee dataset. -/
def wData : Dataset := [wPerson]

/-- The 50000 job after an exact 6.5% raise (53250). -/
def w8Job : Job := ⟨some (.num 53250), "", some (.num 100), "Org", "Title"⟩

/-- An employee with an exact 6.5% raise across the first COLA. -/
def w8Person : Person :=
  ⟨[⟨"2024-03-01", "Classified", [wJob1]⟩,
    ⟨"2024-05-01", "Classified", [w8Job]⟩]⟩

def w8Data : Dataset := [w8Person]

/-- A classified snapshot with one 50000 full-time job. -/
def w7Snap : Snapshot := ⟨"2024-03-01", "Classified", [wJob1]⟩

def w7PersonA : Person := ⟨[w7Snap]⟩

def w7PersonB : Person := ⟨[w7Snap]⟩

/-- Two identical employees forming a two-member peer cohort. -/
def w7Data : Dataset := [w7PersonA, w7PersonB]

/-- An already-ascending timeline whose first
classified→unclassified transition happens on a snapshot without a
date, followed by a second, dated transition. -/
def c5Timeline : List Snapshot :=
  [⟨"", "Classified", []⟩, ⟨"", "Unclassified", []⟩,
   ⟨"2024-01-01", "Classified", []⟩, ⟨"2024-02-01", "Unclassified", []⟩]

/-- A simple dated classified→unclassified timeline. -/
def w5Timeline : List Snapshot :=
  [⟨"2024-01-01", "Classified", []⟩, ⟨"2024-02-01", "Unclassified", []⟩]

/-- A timeline loaded out of order: the in-place sort reorders it. -/
def c9Timeline : List Snapshot :=
  [⟨"2024-02-01", "Classified", []⟩, ⟨"2024-01-01", "Classified", []⟩]

/-! ## Helper lemmas -/

/-- The executable lexicographic compare agrees with the negation of
the strict lexicographic order. -/
lemma charListLe_iff_not_lex :
    ∀ l₁ l₂ : List Char,
      charListLe l₁ l₂ = true ↔ ¬ List.Lex (· < ·) l₂ l₁ := by
  intro l₁
  induction l₁ with
  | nil =>
      intro l₂
      simp only [charListLe, true_iff]
      intro h
      cases h
  | cons a as ih =>
      intro l₂
      cases l₂ with
      | nil =>
          simp only [charListLe, Bool.false_eq_true, false_iff, not_not]
          exact List.Lex.nil
      | cons b bs =>
          by_cases hab : a < b
          · have hnl : ¬ List.Lex (· < ·) (b :: bs) (a :: as) := by
              intro h
              cases h with
              | cons h' => exact absurd hab (lt_irrefl _)
              | rel hr => exact lt_asymm hab hr
            simp [charListLe, hab, hnl]
          · by_cases hba : b < a
            · have hl : List.Lex (· < ·) (b :: bs) (a :: as) :=
                List.Lex.rel hba
              simp [charListLe, hab, hba, hl]
            · have hEq : a = b :=
                le_antisymm (not_lt.1 hba) (not_lt.1 hab)
              subst hEq
              simp only [charListLe, lt_irrefl, if_false]
              rw [ih bs]
              constructor
              · intro h hl
                cases hl with
                | cons h' => exact h h'
                | rel hr => exact absurd hr (lt_irrefl _)
              · intro h hl
                exact h (List.Lex.cons hl)

/-- `strLe` is Mathlib's linear order on `String`. -/
lemma strLe_iff (a b : String) : strLe a b = true ↔ a ≤ b := by
  rw [String.le_iff_toList_le, ← not_lt]
  exact charListLe_iff_not_lex a.data b.data

/-- `strLe` is false exactly when the order fails. -/
lemma strLe_eq_false_iff (a b : String) : strLe a b = false ↔ ¬ a ≤ b := by
  rw [← strLe_iff]
  simp

/-- `dateLe` compares the date strings. -/
lemma dateLe_iff (a b : Snapshot) : dateLe a b ↔ a.date ≤ b.date := by
  unfold dateLe
  exact strLe_iff a.date b.date

/-- A guarded additive fold is the sum over the filtered list. -/
lemma foldl_guarded_add {α : Type} (f : α → ℚ) (P : α → Prop)
    [DecidablePred P] :
    ∀ (l : List α) (a : ℚ),
      l.foldl (fun t j => if P j then t + f j else t) a
        = a + (((l.filter fun j => decide (P j)).map f).sum) := by
  intro l
  induction l with
  | nil => intro a; simp
  | cons x xs ih =>
      intro a
      by_cases hx : P x
      · simp [List.foldl_cons, hx, ih, add_assoc]
      · simp [List.foldl_cons, hx, ih]

/-- The fold of `calculate_snapshot_pay` is the sum of
`rate * (pct / 100)` over the jobs with positive effective rate. -/
lemma calculate_snapshot_pay_eq_sum (snap : Snapshot) :
    calculate_snapshot_pay snap
      = (((snap.jobs.filter fun j =>
            decide ((calc_job_rate_and_missing j).1 > 0)).map
          fun j => (calc_job_rate_and_missing j).1 *
            ((calc_job_rate_and_missing j).2.1 / 100)).sum) := by
  unfold calculate_snapshot_pay
  simpa using foldl_guarded_add
    (fun j => (calc_job_rate_and_missing j).1 *
      ((calc_job_rate_and_missing j).2.1 / 100))
    (fun j => (calc_job_rate_and_missing j).1 > 0) snap.jobs 0

/-! ## Claim theorems -/

/-- C4: `calculate_snapshot_pay` returns `0` for a snapshot with no
jobs, and otherwise the sum over jobs of `rate * (pct / 100)` for
every job with positive effective rate (non-positive rates contribute
nothing); the rate is normalized by stripping everything but digits,
`.`, `-` and treated as absent when the cleaned string is empty or
unparsable; absent rates behave as `0`; a `"mo"`-term job with parsed
rate in `(0, 12]` gets effective rate `0` and the `missing` flag. -/
theorem C4_snapshot_pay_spec (snap : Snapshot) (job : Job) (s : String) :
    (snap.jobs = [] → calculate_snapshot_pay snap = 0) ∧
    calculate_snapshot_pay snap
      = (((snap.jobs.filter fun j =>
            decide ((calc_job_rate_and_missing j).1 > 0)).map
          fun j => (calc_job_rate_and_missing j).1 *
            ((calc_job_rate_and_missing j).2.1 / 100)).sum) ∧
    (stripNonNumeric s = "" → parse_float (some (.str s)) = none) ∧
    (pyFloat (stripNonNumeric s) = none →
      parse_float (some (.str s)) = none) ∧
    (parse_float job.annualSalaryRate = none →
      calc_job_rate_and_missing job
        = (0, orZero (parse_float job.apptPercent), false)) ∧
    (job.salaryTerm.trim = "mo" →
      ∀ r, parse_float job.annualSalaryRate = some r → 0 < r → r ≤ 12 →
        calc_job_rate_and_missing job
          = (0, orZero (parse_float job.apptPercent), true)) := by
  refine ⟨?_, calculate_snapshot_pay_eq_sum snap, ?_, ?_, ?_, ?_⟩
  · intro h; simp [calculate_snapshot_pay, h]
  · intro h; simp [parse_float, h]
  · intro h
    by_cases he : stripNonNumeric s = "" <;> simp [parse_float, he, h]
  · intro h
    simp [calc_job_rate_and_missing, h, moRange, orZero]
  · intro hterm r hr h0 h12
    simp [calc_job_rate_and_missing, hterm, hr, moRange, h0, h12]

/-- Witness for C4 at a concrete snapshot, job and string. -/
theorem C4_snapshot_pay_spec_witness :
    (([] : List Job) = [] →
      calculate_snapshot_pay ⟨"2024-01-01", "Classified", []⟩ = 0) ∧
    calculate_snapshot_pay ⟨"2024-01-01", "Classified", []⟩
      = ((((⟨"2024-01-01", "Classified", []⟩ : Snapshot).jobs.filter fun j =>
            decide ((calc_job_rate_and_missing j).1 > 0)).map
          fun j => (calc_job_rate_and_missing j).1 *
            ((calc_job_rate_and_missing j).2.1 / 100)).sum) ∧
    (stripNonNumeric "abc" = "" →
      parse_float (some (.str "abc")) = none) ∧
    (pyFloat (stripNonNumeric "abc") = none →
      parse_float (some (.str "abc")) = none) ∧
    (parse_float (Job.mk none "mo" none "" "").annualSalaryRate = none →
      calc_job_rate_and_missing (Job.mk none "mo" none "" "")
        = (0, orZero (parse_float (Job.mk none "mo" none "" "").apptPercent),
            false)) ∧
    ((Job.mk none "mo" none "" "").salaryTerm.trim = "mo" →
      ∀ r, parse_float (Job.mk none "mo" none "" "").annualSalaryRate = some r →
        0 < r → r ≤ 12 →
        calc_job_rate_and_missing (Job.mk none "mo" none "" "")
          = (0, orZero (parse_float (Job.mk none "mo" none "" "").apptPercent),
              true)) :=
  C4_snapshot_pay_spec ⟨"2024-01-01", "Classified", []⟩
    (Job.mk none "mo" none "" "") "abc"

/-- Unfolding the date scan over a snoc. -/
lemma scanBeforeAfter_append (eff : String) (l : List String) (d : String) :
    scanBeforeAfter eff (l ++ [d])
      = scanStep eff (scanBeforeAfter eff l) d := by
  simp [scanBeforeAfter, List.foldl_append]

/-- Any selected `before` is an observed date at or before the
effective date. -/
lemma scan_before_mem (eff : String) (l : List String) :
    ∀ b, (scanBeforeAfter eff l).1 = some b → b ∈ l ∧ b ≤ eff := by
  induction l using List.reverseRecOn with
  | nil => intro b h; simp [scanBeforeAfter] at h
  | append_singleton l x ih =>
      intro b h
      rw [scanBeforeAfter_append] at h
      unfold scanStep at h
      by_cases hx : strLe x eff = true
      · simp only [hx, if_true] at h
        simp only [Option.some_inj] at h
        exact ⟨by simp [h], h ▸ (strLe_iff x eff).1 hx⟩
      · simp only [hx, if_false] at h
        obtain ⟨hm, hle⟩ := ih b h
        exact ⟨by simp [hm], hle⟩

/-- Any selected `after` is an observed date at or after the
effective date. -/
lemma scan_after_mem (eff : String) (l : List String) :
    ∀ a, (scanBeforeAfter eff l).2 = some a → a ∈ l ∧ eff ≤ a := by
  induction l using List.reverseRecOn with
  | nil => intro a h; simp [scanBeforeAfter] at h
  | append_singleton l x ih =>
      intro a h
      rw [scanBeforeAfter_append] at h
      unfold scanStep at h
      by_cases hc : (scanBeforeAfter eff l).2 = none ∧ strLe eff x = true
      · simp only [hc.1, hc.2, and_true, if_pos] at h
        simp only [Option.some_inj] at h
        exact ⟨by simp [h], h ▸ (strLe_iff eff x).1 hc.2⟩
      · have h' : (scanBeforeAfter eff l).2 = some a := by
          by_cases hn : (scanBeforeAfter eff l).2 = none
          · have hne : ¬ strLe eff x = true := fun hle => hc ⟨hn, hle⟩
            simp [hn, hne] at h
          · simpa [hn] using h
        obtain ⟨hm, hle⟩ := ih a h'
        exact ⟨by simp [hm], hle⟩

/-- On an ascending date list, the scan's `before` is the latest
qualifying date, and `none` only when no date qualifies. -/
lemma scan_before_max (eff : String) (l : List String)
    (hs : l.Sorted (· ≤ ·)) :
    ((scanBeforeAfter eff l).1 = none → ∀ d ∈ l, ¬ d ≤ eff) ∧
    (∀ b, (scanBeforeAfter eff l).1 = some b →
      ∀ d ∈ l, d ≤ eff → d ≤ b) := by
  induction l using List.reverseRecOn with
  | nil => simp [scanBeforeAfter]
  | append_singleton l x ih =>
      rw [List.Sorted, List.pairwise_append] at hs
      obtain ⟨hsl, -, hbound⟩ := hs
      obtain ⟨ihn, ihs⟩ := ih hsl
      constructor
      · intro hn d hd
        rw [scanBeforeAfter_append] at hn
        unfold scanStep at hn
        by_cases hx : strLe x eff = true
        · simp [hx] at hn
        · have hxle : ¬ x ≤ eff := fun hle => hx ((strLe_iff x eff).2 hle)
          simp only [hx, if_false] at hn
          rcases List.mem_append.1 hd with hdl | hdx
          · exact ihn hn d hdl
          · simp at hdx; exact hdx ▸ hxle
      · intro b hb d hd hdle
        rw [scanBeforeAfter_append] at hb
        unfold scanStep at hb
        by_cases hx : strLe x eff = true
        · simp only [hx, if_true, Option.some_inj] at hb
          rcases List.mem_append.1 hd with hdl | hdx
          · exact hb ▸ hbound d hdl x (by simp)
          · simp at hdx; exact hb ▸ hdx.le
        · have hxle : ¬ x ≤ eff := fun hle => hx ((strLe_iff x eff).2 hle)
          simp only [hx, if_false] at hb
          rcases List.mem_append.1 hd with hdl | hdx
          · exact ihs b hb d hdl hdle
          · simp at hdx; exact absurd (hdx ▸ hdle) hxle

/-- On an ascending date list, the scan's `after` is the earliest
qualifying date, and `none` only when no date qualifies. -/
lemma scan_after_min (eff : String) (l : List String)
    (hs : l.Sorted (· ≤ ·)) :
    ((scanBeforeAfter eff l).2 = none → ∀ d ∈ l, ¬ eff ≤ d) ∧
    (∀ a, (scanBeforeAfter eff l).2 = some a →
      ∀ d ∈ l, eff ≤ d → a ≤ d) := by
  induction l using List.reverseRecOn with
  | nil => simp [scanBeforeAfter]
  | append_singleton l x ih =>
      rw [List.Sorted, List.pairwise_append] at hs
      obtain ⟨hsl, -, hbound⟩ := hs
      obtain ⟨ihn, ihs⟩ := ih hsl
      constructor
      · intro hn d hd
        rw [scanBeforeAfter_append] at hn
        unfold scanStep at hn
        by_cases hc : (scanBeforeAfter eff l).2 = none ∧ strLe eff x = true
        · simp [hc.1, hc.2] at hn
        · by_cases hprev : (scanBeforeAfter eff l).2 = none
          · have hne : ¬ strLe eff x = true := fun hle => hc ⟨hprev, hle⟩
            have hnex : ¬ eff ≤ x := fun hle => hne ((strLe_iff eff x).2 hle)
            rcases List.mem_append.1 hd with hdl | hdx
            · exact ihn hprev d hdl
            · simp at hdx; exact hdx ▸ hnex
          · simp [hprev] at hn
      · intro a ha d hd hdge
        rw [scanBeforeAfter_append] at ha
        unfold scanStep at ha
        by_cases hc : (scanBeforeAfter eff l).2 = none ∧ strLe eff x = true
        · simp only [hc.1, hc.2, and_true, if_pos, Option.some_inj] at ha
          rcases List.mem_append.1 hd with hdl | hdx
          · exact absurd hdge (ihn hc.1 d hdl)
          · simp at hdx; rw [← ha, hdx]
        · by_cases hprev : (scanBeforeAfter eff l).2 = none
          · have hne : ¬ strLe eff x = true := fun hle => hc ⟨hprev, hle⟩
            simp [hprev, hne] at ha
          · have ha' : (scanBeforeAfter eff l).2 = some a := by
              simpa [hprev] using ha
            rcases List.mem_append.1 hd with hdl | hdx
            · exact ihs a ha' d hdl hdge
            · simp at hdx
              obtain ⟨a', ha''⟩ := Option.ne_none_iff_exists'.1 hprev
              have hmem := (scan_after_mem eff l a' ha'').1
              have haa : a = a' :=
                (Option.some_inj.1 (ha''.symm.trans ha')).symm
              rw [hdx, haa]
              exact hbound a' hmem x (by simp)

/-- C3: for every ascending list of observed dates, `build_cola_pairs`
gives each event the latest observed date at or before its effective
date as `beforeDate` and the earliest observed date at or after it as
`afterDate`, leaves a side `none` exactly when no date qualifies, and
never produces `afterDate < beforeDate` when both are set. -/
theorem C3_build_cola_pairs_bracketing (dates : List String)
    (events : List ColaEvent) (hs : dates.Sorted (· ≤ ·)) :
    ∀ p ∈ build_cola_pairs dates events,
      (∀ b, p.beforeDate = some b →
        b ∈ dates ∧ b ≤ p.effective ∧
          ∀ d ∈ dates, d ≤ p.effective → d ≤ b) ∧
      (p.beforeDate = none → ∀ d ∈ dates, ¬ d ≤ p.effective) ∧
      (∀ a, p.afterDate = some a →
        a ∈ dates ∧ p.effective ≤ a ∧
          ∀ d ∈ dates, p.effective ≤ d → a ≤ d) ∧
      (p.afterDate = none → ∀ d ∈ dates, ¬ p.effective ≤ d) ∧
      (∀ b a, p.beforeDate = some b → p.afterDate = some a → ¬ a < b) := by
  intro p hp
  unfold build_cola_pairs at hp
  by_cases hd : dates = []
  · simp [hd] at hp
  · simp [hd] at hp
    obtain ⟨e, he, rfl⟩ := hp
    dsimp
    refine ⟨?_, (scan_before_max e.effective dates hs).1, ?_,
      (scan_after_min e.effective dates hs).1, ?_⟩
    · intro b hb
      exact ⟨(scan_before_mem e.effective dates b hb).1,
        (scan_before_mem e.effective dates b hb).2,
        (scan_before_max e.effective dates hs).2 b hb⟩
    · intro a ha
      exact ⟨(scan_after_mem e.effective dates a ha).1,
        (scan_after_mem e.effective dates a ha).2,
        (scan_after_min e.effective dates hs).2 a ha⟩
    · intro b a hb ha
      exact not_lt.2 ((scan_before_mem e.effective dates b hb).2.trans
        (scan_after_mem e.effective dates a ha).2)

/-- Witness for C3: the first configured event's pair on the sorted
date list `["2024-03-01", "2024-05-01"]`. -/
theorem C3_build_cola_pairs_bracketing_witness :
    (∀ b, (ColaPair.mk "6.5% COLA" "2024-04-01" 6.5
        (some "2024-03-01") (some "2024-05-01")).beforeDate = some b →
      b ∈ ["2024-03-01", "2024-05-01"] ∧ b ≤ "2024-04-01" ∧
        ∀ d ∈ ["2024-03-01", "2024-05-01"], d ≤ "2024-04-01" → d ≤ b) ∧
    ((ColaPair.mk "6.5% COLA" "2024-04-01" 6.5
        (some "2024-03-01") (some "2024-05-01")).beforeDate = none →
      ∀ d ∈ ["2024-03-01", "2024-05-01"], ¬ d ≤ "2024-04-01") ∧
    (∀ a, (ColaPair.mk "6.5% COLA" "2024-04-01" 6.5
        (some "2024-03-01") (some "2024-05-01")).afterDate = some a →
      a ∈ ["2024-03-01", "2024-05-01"] ∧ "2024-04-01" ≤ a ∧
        ∀ d ∈ ["2024-03-01", "2024-05-01"], "2024-04-01" ≤ d → a ≤ d) ∧
    ((ColaPair.mk "6.5% COLA" "2024-04-01" 6.5
        (some "2024-03-01") (some "2024-05-01")).afterDate = none →
      ∀ d ∈ ["2024-03-01", "2024-05-01"], ¬ "2024-04-01" ≤ d) ∧
    (∀ b a, (ColaPair.mk "6.5% COLA" "2024-04-01" 6.5
        (some "2024-03-01") (some "2024-05-01")).beforeDate = some b →
      (ColaPair.mk "6.5% COLA" "2024-04-01" 6.5
        (some "2024-03-01") (some "2024-05-01")).afterDate = some a →
      ¬ a < b) := by
  have hpairs : build_cola_pairs ["2024-03-01", "2024-05-01"] COLA_EVENTS
      = [ColaPair.mk "6.5% COLA" "2024-04-01" 6.5
          (some "2024-03-01") (some "2024-05-01"),
         ColaPair.mk "2% COLA" "2024-11-01" 2.0
          (some "2024-05-01") none,
         ColaPair.mk "3.5% COLA" "2025-06-01" 3.5
          (some "2024-05-01") none] := by
    simp +decide [build_cola_pairs, scanBeforeAfter, scanStep,
      COLA_EVENTS]
  exact C3_build_cola_pairs_bracketing ["2024-03-01", "2024-05-01"]
    COLA_EVENTS
    (by simp [List.sorted_cons, String.le_iff_toList_le]; decide)
    (ColaPair.mk "6.5% COLA" "2024-04-01" 6.5
      (some "2024-03-01") (some "2024-05-01"))
    (by rw [hpairs]; simp)

/-- A pair failing the guard leaves the accumulator untouched. -/
lemma colaStep_skip (pay : String → Option ℚ) (st : ColaOutcome)
    (p : ColaPair) (h : colaQualifies pay p = false) :
    colaStep pay st p = st := by
  rcases hb : p.beforeDate with _ | bd
  · simp [colaStep, hb]
  rcases ha : p.afterDate with _ | ad
  · simp [colaStep, hb, ha]
  unfold colaQualifies at h
  rw [hb, ha] at h
  simp at h
  unfold colaStep
  rw [hb, ha]
  by_cases h1 : bd = "" ∨ ad = ""
  · simp [h1]
  push_neg at h1
  by_cases h2 : bd = ad
  · simp [h1, h2]
  by_cases h3 : (pay bd).getD 0 ≤ 0
  · simp [h1, h2, h3, not_or]
  exact absurd (h h1.1 h1.2 h2) h3

/-- A fold whose step ignores non-qualifying elements equals the fold
over the qualifying elements only. -/
lemma foldl_filter_skip {α β : Type} (step : β → α → β) (q : α → Bool)
    (hskip : ∀ st a, q a = false → step st a = st) :
    ∀ (l : List α) (init : β),
      l.foldl step init = (l.filter q).foldl step init := by
  intro l
  induction l with
  | nil => intro init; simp
  | cons x xs ih =>
      intro init
      by_cases hx : q x = true
      · simp [List.filter_cons, hx, ih]
      · have hx' : q x = false := by simpa using hx
        simp [List.filter_cons, hx', hskip init x hx', ih]

/-- Skipped pairs can be removed from the event loop without changing
its outcome. -/
lemma evalCola_filter (pay : String → Option ℚ) (pairs : List ColaPair) :
    evalCola pay pairs
      = evalCola pay (pairs.filter (colaQualifies pay)) :=
  foldl_filter_skip (colaStep pay) (colaQualifies pay)
    (colaStep_skip pay) pairs colaInit

/-- Every date selected into a pair is one of the scanned dates. -/
lemma build_pairs_dates_mem (dates : List String)
    (events : List ColaEvent) :
    ∀ pr ∈ build_cola_pairs dates events,
      (∀ bd, pr.beforeDate = some bd → bd ∈ dates) ∧
      (∀ ad, pr.afterDate = some ad → ad ∈ dates) := by
  intro pr hpr
  unfold build_cola_pairs at hpr
  by_cases hd : dates = []
  · simp [hd] at hpr
  · simp [hd] at hpr
    obtain ⟨e, he, rfl⟩ := hpr
    exact ⟨fun bd hb => (scan_before_mem e.effective dates bd hb).1,
      fun ad ha => (scan_after_mem e.effective dates ad ha).1⟩

/-- Every observed date is non-empty (line 163-165 only collects
truthy dates). -/
lemma observedDates_ne_empty (data : Dataset) :
    ∀ d ∈ observedDates data, d ≠ "" := by
  intro d hd
  unfold observedDates at hd
  rw [List.mem_insertionSort, List.mem_dedup, List.mem_filter] at hd
  simpa using hd.2

/-- C1: an employee whose last snapshot's source contains "unclass"
(case-insensitively) gets exactly
`{received := true, checked := 0, missed := [], missing := false}`;
for anyone else the event loop's outcome equals the loop over only the
qualifying pairs (a skipped pair changes nothing), a configured pair
qualifies precisely when both dates are set, they differ and the
baseline pay is positive, and the final `missing` flag always equals
`!received && checked > 0`. -/
theorem C1_cola_result_spec (data : Dataset) (p : Person) :
    (lastIsUnclass (sortTimeline p.timeline) = true →
      personColaFields data p = ⟨true, 0, [], false⟩) ∧
    (lastIsUnclass (sortTimeline p.timeline) = false →
      personColaFields data p
        = colaFinalize (evalCola (payByDate (sortTimeline p.timeline))
            ((build_cola_pairs (observedDates data) COLA_EVENTS).filter
              (colaQualifies (payByDate (sortTimeline p.timeline)))))) ∧
    (∀ st pr,
      colaQualifies (payByDate (sortTimeline p.timeline)) pr = false →
      colaStep (payByDate (sortTimeline p.timeline)) st pr = st) ∧
    (∀ pr ∈ build_cola_pairs (observedDates data) COLA_EVENTS,
      (colaQualifies (payByDate (sortTimeline p.timeline)) pr = true ↔
        ∃ bd ad, pr.beforeDate = some bd ∧ pr.afterDate = some ad ∧
          bd ≠ ad ∧ 0 < (payByDate (sortTimeline p.timeline) bd).getD 0)) ∧
    (personColaFields data p).missing
      = (!(personColaFields data p).received &&
          decide (0 < (personColaFields data p).checked)) := by
  refine ⟨?_, ?_, colaStep_skip _, ?_, ?_⟩
  · intro h
    simp [personColaFields, colaFieldsFor, h]
  · intro h
    simp only [personColaFields, colaFieldsFor, h, Bool.false_eq_true,
      if_false]
    exact congrArg colaFinalize (evalCola_filter _ _)
  · intro pr hpr
    constructor
    · intro hq
      unfold colaQualifies at hq
      rcases hb : pr.beforeDate with _ | bd <;> rw [hb] at hq
      · simp at hq
      rcases ha : pr.afterDate with _ | ad <;> rw [ha] at hq
      · simp at hq
      simp only [Bool.and_eq_true, decide_eq_true_eq] at hq
      exact ⟨bd, ad, rfl, rfl, hq.1.2, hq.2⟩
    · rintro ⟨bd, ad, hb, ha, hne, hpos⟩
      have hbm :=
        (build_pairs_dates_mem (observedDates data) COLA_EVENTS pr hpr).1
          bd hb
      have ham :=
        (build_pairs_dates_mem (observedDates data) COLA_EVENTS pr hpr).2
          ad ha
      have hbne := observedDates_ne_empty data bd hbm
      have hane := observedDates_ne_empty data ad ham
      unfold colaQualifies
      rw [hb, ha]
      simp [hbne, hane, hne, hpos]
  · by_cases h : lastIsUnclass (sortTimeline p.timeline) = true <;>
      simp [personColaFields, colaFieldsFor, colaFinalize, h]

/-- Witness for C1 at the concrete one-employee dataset. -/
theorem C1_cola_result_spec_witness :
    (lastIsUnclass (sortTimeline wPerson.timeline) = true →
      personColaFields wData wPerson = ⟨true, 0, [], false⟩) ∧
    (lastIsUnclass (sortTimeline wPerson.timeline) = false →
      personColaFields wData wPerson
        = colaFinalize (evalCola (payByDate (sortTimeline wPerson.timeline))
            ((build_cola_pairs (observedDates wData) COLA_EVENTS).filter
              (colaQualifies (payByDate (sortTimeline wPerson.timeline)))))) ∧
    (∀ st pr,
      colaQualifies (payByDate (sortTimeline wPerson.timeline)) pr = false →
      colaStep (payByDate (sortTimeline wPerson.timeline)) st pr = st) ∧
    (∀ pr ∈ build_cola_pairs (observedDates wData) COLA_EVENTS,
      (colaQualifies (payByDate (sortTimeline wPerson.timeline)) pr = true ↔
        ∃ bd ad, pr.beforeDate = some bd ∧ pr.afterDate = some ad ∧
          bd ≠ ad ∧
          0 < (payByDate (sortTimeline wPerson.timeline) bd).getD 0)) ∧
    (personColaFields wData wPerson).missing
      = (!(personColaFields wData wPerson).received &&
          decide (0 < (personColaFields wData wPerson).checked)) :=
  C1_cola_result_spec wData wPerson

/-- Each event-loop step either skips, or checks the pair and
records it as received, or checks it and appends its label to the
missed list. -/
lemma colaStep_cases (pay : String → Option ℚ) (st : ColaOutcome)
    (p : ColaPair) :
    colaStep pay st p = st ∨
    colaStep pay st p = ⟨true, st.checked + 1, st.missed⟩ ∨
    colaStep pay st p
      = ⟨st.received, st.checked + 1, st.missed ++ [p.label]⟩ := by
  unfold colaStep
  rcases p.beforeDate with _ | bd
  · left; rfl
  rcases p.afterDate with _ | ad
  · left; rfl
  dsimp only
  split
  · left; rfl
  split
  · left; rfl
  split
  · left; rfl
  split
  · right; left; rfl
  · right; right; rfl

/-- Fold invariant of the event loop, relative to a starting
accumulator. -/
lemma cola_fold_inv (pay : String → Option ℚ) :
    ∀ (pairs : List ColaPair) (st : ColaOutcome),
      ((pairs.foldl (colaStep pay) st).missed.length
          ≤ (pairs.foldl (colaStep pay) st).checked
        ∨ ¬ st.missed.length ≤ st.checked) ∧
      (pairs.foldl (colaStep pay) st).checked ≤ st.checked + pairs.length ∧
      (∀ lbl ∈ (pairs.foldl (colaStep pay) st).missed,
        lbl ∈ st.missed ∨ lbl ∈ pairs.map ColaPair.label) ∧
      ((pairs.foldl (colaStep pay) st).received = false →
        st.received = false) ∧
      ((pairs.foldl (colaStep pay) st).received = false →
        st.missed.length = st.checked →
        (pairs.foldl (colaStep pay) st).missed.length
          = (pairs.foldl (colaStep pay) st).checked) := by
  intro pairs
  induction pairs with
  | nil =>
      intro st
      refine ⟨?_, by simp, by simp, fun h => h, fun _ h => h⟩
      by_cases h : st.missed.length ≤ st.checked
      · exact Or.inl h
      · exact Or.inr h
  | cons p ps ih =>
      intro st
      simp only [List.foldl_cons]
      rcases colaStep_cases pay st p with hc | hc | hc <;> rw [hc]
      · obtain ⟨i1, i2, i3, i4, i5⟩ := ih st
        refine ⟨i1, i2.trans (by simp [Nat.add_assoc]), ?_, i4, i5⟩
        intro lbl hl
        rcases i3 lbl hl with h | h
        · exact Or.inl h
        · exact Or.inr (by simp [h])
      · obtain ⟨i1, i2, i3, i4, -⟩ := ih ⟨true, st.checked + 1, st.missed⟩
        refine ⟨?_, ?_, ?_, ?_, ?_⟩
        · rcases i1 with h | h
          · exact Or.inl h
          · by_cases hst : st.missed.length ≤ st.checked
            · exact absurd (hst.trans (Nat.le_succ _)) h
            · exact Or.inr hst
        · calc (ps.foldl (colaStep pay) ⟨true, st.checked + 1, st.missed⟩).checked
              ≤ st.checked + 1 + ps.length := i2
            _ = st.checked + (p :: ps).length := by
                simp [Nat.add_comm, Nat.add_assoc, Nat.add_left_comm]
        · intro lbl hl
          rcases i3 lbl hl with h | h
          · exact Or.inl h
          · exact Or.inr (by simp [h])
        · intro h
          exact absurd (i4 h) (by simp)
        · intro h
          exact absurd (i4 h) (by simp)
      · obtain ⟨i1, i2, i3, i4, i5⟩ :=
          ih ⟨st.received, st.checked + 1, st.missed ++ [p.label]⟩
        refine ⟨?_, ?_, ?_, ?_, ?_⟩
        · rcases i1 with h | h
          · exact Or.inl h
          · by_cases hst : st.missed.length ≤ st.checked
            · exact absurd (by simpa using Nat.succ_le_succ hst) h
            · exact Or.inr hst
        · calc (ps.foldl (colaStep pay)
                ⟨st.received, st.checked + 1, st.missed ++ [p.label]⟩).checked
              ≤ st.checked + 1 + ps.length := i2
            _ = st.checked + (p :: ps).length := by
                simp [Nat.add_comm, Nat.add_assoc, Nat.add_left_comm]
        · intro lbl hl
          rcases i3 lbl hl with h | h
          · rcases List.mem_append.1 h with h' | h'
            · exact Or.inl h'
            · simp at h'
              exact Or.inr (by simp [h'])
          · exact Or.inr (by simp [h])
        · exact fun h => i4 h
        · intro h hlen
          exact i5 h (by simp [hlen])

/-- At most one pair per configured event. -/
lemma build_pairs_length_le (dates : List String)
    (events : List ColaEvent) :
    (build_cola_pairs dates events).length ≤ events.length := by
  unfold build_cola_pairs
  split
  · simp
  · simp

/-- Each pair's label is one of the configured event labels. -/
lemma build_pairs_label_mem (dates : List String)
    (events : List ColaEvent) :
    ∀ lbl ∈ (build_cola_pairs dates events).map ColaPair.label,
      lbl ∈ events.map ColaEvent.label := by
  intro lbl hl
  unfold build_cola_pairs at hl
  rcases List.mem_map.1 hl with ⟨pr, hpr, rfl⟩
  revert hpr
  split
  · intro h; simp at h
  · intro hpr
    rcases List.mem_map.1 hpr with ⟨e, he, rfl⟩
    exact List.mem_map.2 ⟨e, he, rfl⟩

/-- C10: the emitted COLA bookkeeping fields satisfy
`len missed ≤ checked ≤ 3` (the number of configured events), every
missed label is a configured event label, and whenever `received` is
false, `len missed = checked`. -/
theorem C10_cola_bookkeeping_invariants (data : Dataset) (p : Person) :
    (personColaFields data p).missed.length
      ≤ (personColaFields data p).checked ∧
    (personColaFields data p).checked ≤ COLA_EVENTS.length ∧
    COLA_EVENTS.length = 3 ∧
    (∀ lbl ∈ (personColaFields data p).missed,
      lbl ∈ COLA_EVENTS.map ColaEvent.label) ∧
    ((personColaFields data p).received = false →
      (personColaFields data p).missed.length
        = (personColaFields data p).checked) := by
  by_cases h : lastIsUnclass (sortTimeline p.timeline) = true
  · refine ⟨?_, ?_, rfl, ?_, ?_⟩ <;>
      simp [personColaFields, colaFieldsFor, h]
  · have hfields : personColaFields data p
        = colaFinalize (evalCola (payByDate (sortTimeline p.timeline))
            (build_cola_pairs (observedDates data) COLA_EVENTS)) := by
      simp [personColaFields, colaFieldsFor, h]
    obtain ⟨i1, i2, i3, -, i5⟩ :=
      cola_fold_inv (payByDate (sortTimeline p.timeline))
        (build_cola_pairs (observedDates data) COLA_EVENTS) colaInit
    rw [hfields]
    refine ⟨?_, ?_, rfl, ?_, ?_⟩
    · rcases i1 with h1 | h1
      · exact h1
      · exact absurd (by simp [colaInit]) h1
    · calc (evalCola (payByDate (sortTimeline p.timeline))
            (build_cola_pairs (observedDates data) COLA_EVENTS)).checked
          ≤ colaInit.checked
            + (build_cola_pairs (observedDates data) COLA_EVENTS).length :=
            i2
        _ ≤ COLA_EVENTS.length := by
            simpa [colaInit] using
              build_pairs_length_le (observedDates data) COLA_EVENTS
    · intro lbl hl
      rcases i3 lbl hl with h' | h'
      · simp [colaInit] at h'
      · exact build_pairs_label_mem (observedDates data) COLA_EVENTS lbl h'
    · intro hrec
      exact i5 hrec (by simp [colaInit])

/-- Witness for C10 at the concrete one-employee dataset. -/
theorem C10_cola_bookkeeping_invariants_witness :
    (personColaFields wData wPerson).missed.length
      ≤ (personColaFields wData wPerson).checked ∧
    (personColaFields wData wPerson).checked ≤ COLA_EVENTS.length ∧
    COLA_EVENTS.length = 3 ∧
    (∀ lbl ∈ (personColaFields wData wPerson).missed,
      lbl ∈ COLA_EVENTS.map ColaEvent.label) ∧
    ((personColaFields wData wPerson).received = false →
      (personColaFields wData wPerson).missed.length
        = (personColaFields wData wPerson).checked) :=
  C10_cola_bookkeeping_invariants wData wPerson

/-- A step that evaluates a pair whose change meets the threshold sets
`received`. -/
lemma colaStep_received_of (pay : String → Option ℚ) (st : ColaOutcome)
    (p : ColaPair) (bd ad : String)
    (hb : p.beforeDate = some bd) (ha : p.afterDate = some ad)
    (hbne : bd ≠ "") (hane : ad ≠ "") (hdiff : bd ≠ ad)
    (hpos : 0 < (pay bd).getD 0)
    (hraise : p.pct - COLA_TOLERANCE_PCT
      ≤ (((pay ad).getD 0 - (pay bd).getD 0) / (pay bd).getD 0) * 100) :
    (colaStep pay st p).received = true := by
  unfold colaStep
  rw [hb, ha]
  dsimp only
  rw [if_neg (by simp [hbne, hane]), if_neg hdiff,
    if_neg (not_le.2 hpos), if_pos hraise]

/-- `received` is sticky across the event loop. -/
lemma cola_fold_received_mono (pay : String → Option ℚ) :
    ∀ (pairs : List ColaPair) (st : ColaOutcome),
      st.received = true →
      (pairs.foldl (colaStep pay) st).received = true := by
  intro pairs
  induction pairs with
  | nil => intro st h; exact h
  | cons q qs ih =>
      intro st h
      simp only [List.foldl_cons]
      apply ih
      rcases colaStep_cases pay st q with hc | hc | hc <;> rw [hc] <;>
        simp [h]

/-- If some pair of the list meets the threshold for the employee,
the loop ends with `received = true`. -/
lemma evalCola_received_of_mem (pay : String → Option ℚ)
    (pairs : List ColaPair) (p : ColaPair) (bd ad : String)
    (hb : p.beforeDate = some bd) (ha : p.afterDate = some ad)
    (hbne : bd ≠ "") (hane : ad ≠ "") (hdiff : bd ≠ ad)
    (hpos : 0 < (pay bd).getD 0)
    (hraise : p.pct - COLA_TOLERANCE_PCT
      ≤ (((pay ad).getD 0 - (pay bd).getD 0) / (pay bd).getD 0) * 100) :
    ∀ st, p ∈ pairs → (pairs.foldl (colaStep pay) st).received = true := by
  induction pairs with
  | nil => intro st hp; simp at hp
  | cons q qs ih =>
      intro st hp
      simp only [List.foldl_cons]
      rcases List.mem_cons.1 hp with rfl | hmem
      · exact cola_fold_received_mono pay qs _
          (colaStep_received_of pay st p bd ad hb ha hbne hane hdiff
            hpos hraise)
      · exact ih _ hmem

/-- C8: for a configured pair, a classified employee whose baseline pay
is positive and whose pay at `afterDate` is exactly
`before * (1 + pct/100)` has percentage change exactly `pct`, which
meets the tolerance-adjusted threshold `pct - 0.4`, and the emitted
`received` flag is true. -/
theorem C8_cola_monotonicity (data : Dataset) (p : Person) (pr : ColaPair)
    (hpr : pr ∈ build_cola_pairs (observedDates data) COLA_EVENTS)
    (hU : lastIsUnclass (sortTimeline p.timeline) = false)
    (bd ad : String)
    (hb : pr.beforeDate = some bd) (ha : pr.afterDate = some ad)
    (hdiff : bd ≠ ad)
    (hpos : 0 < (payByDate (sortTimeline p.timeline) bd).getD 0)
    (hexact : (payByDate (sortTimeline p.timeline) ad).getD 0
      = (payByDate (sortTimeline p.timeline) bd).getD 0
        * (1 + pr.pct / 100)) :
    (((payByDate (sortTimeline p.timeline) ad).getD 0
        - (payByDate (sortTimeline p.timeline) bd).getD 0)
        / (payByDate (sortTimeline p.timeline) bd).getD 0) * 100
      = pr.pct ∧
    pr.pct - COLA_TOLERANCE_PCT
      ≤ (((payByDate (sortTimeline p.timeline) ad).getD 0
        - (payByDate (sortTimeline p.timeline) bd).getD 0)
        / (payByDate (sortTimeline p.timeline) bd).getD 0) * 100 ∧
    (personColaFields data p).received = true := by
  have hbp : (payByDate (sortTimeline p.timeline) bd).getD 0 ≠ 0 :=
    ne_of_gt hpos
  have hchange : (((payByDate (sortTimeline p.timeline) ad).getD 0
      - (payByDate (sortTimeline p.timeline) bd).getD 0)
      / (payByDate (sortTimeline p.timeline) bd).getD 0) * 100 = pr.pct := by
    rw [hexact]
    field_simp
    ring
  have hthresh : pr.pct - COLA_TOLERANCE_PCT
      ≤ (((payByDate (sortTimeline p.timeline) ad).getD 0
      - (payByDate (sortTimeline p.timeline) bd).getD 0)
      / (payByDate (sortTimeline p.timeline) bd).getD 0) * 100 := by
    rw [hchange]
    have : (0 : ℚ) ≤ COLA_TOLERANCE_PCT := by norm_num [COLA_TOLERANCE_PCT]
    linarith
  refine ⟨hchange, hthresh, ?_⟩
  have hbne : bd ≠ "" :=
    observedDates_ne_empty data bd
      ((build_pairs_dates_mem (observedDates data) COLA_EVENTS pr hpr).1
        bd hb)
  have hane : ad ≠ "" :=
    observedDates_ne_empty data ad
      ((build_pairs_dates_mem (observedDates data) COLA_EVENTS pr hpr).2
        ad ha)
  have hrec := evalCola_received_of_mem
    (payByDate (sortTimeline p.timeline))
    (build_cola_pairs (observedDates data) COLA_EVENTS) pr bd ad
    hb ha hbne hane hdiff hpos hthresh colaInit hpr
  simp only [personColaFields, colaFieldsFor, hU, Bool.false_eq_true,
    if_false, colaFinalize]
  exact hrec

/-- Witness for C8: one employee with an exact 6.5% raise across the
first configured COLA event. -/
theorem C8_cola_monotonicity_witness :
    (((payByDate (sortTimeline w8Person.timeline) "2024-05-01").getD 0
        - (payByDate (sortTimeline w8Person.timeline) "2024-03-01").getD 0)
        / (payByDate (sortTimeline w8Person.timeline) "2024-03-01").getD 0)
        * 100
      = (ColaPair.mk "6.5% COLA" "2024-04-01" 6.5
          (some "2024-03-01") (some "2024-05-01")).pct ∧
    (ColaPair.mk "6.5% COLA" "2024-04-01" 6.5
          (some "2024-03-01") (some "2024-05-01")).pct - COLA_TOLERANCE_PCT
      ≤ (((payByDate (sortTimeline w8Person.timeline) "2024-05-01").getD 0
        - (payByDate (sortTimeline w8Person.timeline) "2024-03-01").getD 0)
        / (payByDate (sortTimeline w8Person.timeline) "2024-03-01").getD 0)
        * 100 ∧
    (personColaFields w8Data w8Person).received = true := by
  have hp1 : (payByDate (sortTimeline w8Person.timeline)
      "2024-03-01").getD 0 = 50000 := by
    simp +decide [payByDate, sortTimeline, List.insertionSort,
      List.orderedInsert, w8Person, calculate_snapshot_pay,
      calc_job_rate_and_missing, parse_float, moRange, orZero, wJob1,
      w8Job]
  have hp2 : (payByDate (sortTimeline w8Person.timeline)
      "2024-05-01").getD 0 = 53250 := by
    simp +decide [payByDate, sortTimeline, List.insertionSort,
      List.orderedInsert, w8Person, calculate_snapshot_pay,
      calc_job_rate_and_missing, parse_float, moRange, orZero, wJob1,
      w8Job]
  have hdates : observedDates w8Data = ["2024-03-01", "2024-05-01"] := by
    simp +decide [observedDates, w8Data, w8Person, sortTimeline,
      List.insertionSort, List.orderedInsert]
  have hpairs : build_cola_pairs (observedDates w8Data) COLA_EVENTS
      = [ColaPair.mk "6.5% COLA" "2024-04-01" 6.5
          (some "2024-03-01") (some "2024-05-01"),
         ColaPair.mk "2% COLA" "2024-11-01" 2.0
          (some "2024-05-01") none,
         ColaPair.mk "3.5% COLA" "2025-06-01" 3.5
          (some "2024-05-01") none] := by
    rw [hdates]
    simp +decide [build_cola_pairs, scanBeforeAfter, scanStep,
      COLA_EVENTS]
  exact C8_cola_monotonicity w8Data w8Person
    (ColaPair.mk "6.5% COLA" "2024-04-01" 6.5
      (some "2024-03-01") (some "2024-05-01"))
    (by rw [hpairs]; simp) (by decide) "2024-03-01" "2024-05-01" rfl rfl
    (by decide) (by rw [hp1]; norm_num)
    (by rw [hp1, hp2]; norm_num)

/-- A fold of a product of two independent accumulators is the product
of the two folds. -/
lemma foldl_pair {α β γ : Type} (f : β → α → β) (g : γ → α → γ) :
    ∀ (l : List α) (b : β) (c : γ),
      l.foldl (fun st r => (f st.1 r, g st.2 r)) (b, c)
        = (l.foldl f b, l.foldl g c) := by
  intro l
  induction l with
  | nil => intro b c; simp
  | cons x xs ih => intro b c; simp [List.foldl_cons, ih]

/-- C6: the fused pass over a dataset's rows yields exactly the
stats map of the stats-only pass, and peer-cohort bucket lists whose
per-(date, key) lengths match the cohort-only pass. -/
theorem C6_fusion_parity (data : Dataset) :
    (fusedPass (rowsOf data)).1 = statsOnlyPass (rowsOf data) ∧
    ∀ d k, ((fusedPass (rowsOf data)).2 d k).length
      = (peersOnlyPass (rowsOf data) d k).length := by
  have h := foldl_pair statsUpdate peerUpdate (rowsOf data)
    (fun _ => none) (fun _ _ => [])
  unfold fusedPass statsOnlyPass peersOnlyPass
  rw [h]
  exact ⟨rfl, fun d k => rfl⟩

/-- On a sorted list, a prefix cut by a downward-closed predicate has
the same length as the full count. -/
lemma takeWhile_length_eq_countP (p : ℚ → Bool)
    (hp : ∀ a b : ℚ, a ≤ b → p b = true → p a = true) :
    ∀ l : List ℚ, l.Sorted (· ≤ ·) →
      (l.takeWhile p).length = l.countP p := by
  intro l
  induction l with
  | nil => intro _; simp
  | cons x xs ih =>
      intro hs
      rw [List.sorted_cons] at hs
      by_cases hx : p x = true
      · simp [List.takeWhile_cons, List.countP_cons, hx, ih hs.2,
          Nat.add_comm]
      · have hz : xs.countP p = 0 := by
          rw [List.countP_eq_zero]
          intro b hb hpb
          exact hx (hp x b (hs.1 b hb) hpb)
        have hx' : p x = false := by simpa using hx
        simp [List.takeWhile_cons, hx', List.countP_cons, hz]

/-- Counting `≤ x` splits into counting `< x` and counting `= x`. -/
lemma countP_le_split (l : List ℚ) (x : ℚ) :
    l.countP (fun v => decide (v ≤ x))
      = l.countP (fun v => decide (v < x))
        + l.countP (fun v => decide (v = x)) := by
  induction l with
  | nil => simp
  | cons a as ih =>
      rcases lt_trichotomy a x with h | h | h
      · simp [List.countP_cons, h, le_of_lt h, ne_of_lt h, ih,
          Nat.add_assoc, Nat.add_comm, Nat.add_left_comm]
      · subst h
        simp [List.countP_cons, le_refl, lt_irrefl, ih, Nat.add_assoc]
      · simp [List.countP_cons, not_le.2 h, not_lt.2 h.le, ne_of_gt h,
          ih]

/-- Every cohort list is ascending after the line-296 sort. -/
lemma sortedCohort_sorted (data : Dataset) (date key : String) :
    (sortedCohort data date key).Sorted (· ≤ ·) := by
  unfold sortedCohort
  exact List.sorted_insertionSort _ _

/-- `bisect_left` on the sorted cohort counts the elements `< x`. -/
lemma bisect_left_eq_countP (data : Dataset) (date key : String)
    (x : ℚ) :
    bisect_left (sortedCohort data date key) x
      = (sortedCohort data date key).countP (fun v => decide (v < x)) := by
  unfold bisect_left
  exact takeWhile_length_eq_countP _
    (fun a b hab hb => by
      simp only [decide_eq_true_eq] at hb ⊢
      exact lt_of_le_of_lt hab hb)
    _ (sortedCohort_sorted data date key)

/-- `bisect_right` on the sorted cohort counts the elements `≤ x`. -/
lemma bisect_right_eq_countP (data : Dataset) (date key : String)
    (x : ℚ) :
    bisect_right (sortedCohort data date key) x
      = (sortedCohort data date key).countP (fun v => decide (v ≤ x)) := by
  unfold bisect_right
  exact takeWhile_length_eq_countP _
    (fun a b hab hb => by
      simp only [decide_eq_true_eq] at hb ⊢
      exact le_trans hab hb)
    _ (sortedCohort_sorted data date key)

/-- The percentile read factors through the last snapshot's
(date, key, pay) triple. -/
lemma peerPercentile_eq_key (data : Dataset) (p : Person)
    (last : Snapshot)
    (hl : (sortTimeline p.timeline).getLast? = some last) :
    peerPercentile data p
      = percentileOfKey data last.date (peerKeyOf last)
          (calculate_snapshot_pay last) := by
  unfold peerPercentile percentileOfKey peerKeyOf
  dsimp only
  rw [hl]
  rcases hj : last.jobs with _ | ⟨pj, rest⟩ <;> simp [hj]

/-- C2: the peer percentile is read only from the last sorted
snapshot's cohort, keyed by its date and its primary job's
org-or-Unknown / title-or-Unknown; it is `none` when the timeline is
empty, the last snapshot has no jobs, the cohort has at most one
member, or the last pay is not positive; otherwise it is
`(countBelow + 0.5 * countEqual) / size * 100` over the sorted cohort
list. -/
theorem C2_peer_percentile_spec (data : Dataset) (p : Person) :
    (sortTimeline p.timeline = [] → peerPercentile data p = none) ∧
    (∀ last, (sortTimeline p.timeline).getLast? = some last →
      last.jobs = [] → peerPercentile data p = none) ∧
    (∀ last key, (sortTimeline p.timeline).getLast? = some last →
      peerKeyOf last = some key →
      ((sortedCohort data last.date key).length ≤ 1 ∨
        calculate_snapshot_pay last ≤ 0) →
      peerPercentile data p = none) ∧
    (∀ last key, (sortTimeline p.timeline).getLast? = some last →
      peerKeyOf last = some key →
      1 < (sortedCohort data last.date key).length →
      0 < calculate_snapshot_pay last →
      peerPercentile data p
        = some (((((sortedCohort data last.date key).countP
              (fun v => decide (v < calculate_snapshot_pay last)) : ℚ)
            + 0.5 * (((sortedCohort data last.date key).countP
              (fun v => decide (v = calculate_snapshot_pay last)) : ℚ)))
            / ((sortedCohort data last.date key).length : ℚ)) * 100)) := by
  refine ⟨?_, ?_, ?_, ?_⟩
  · intro h
    unfold peerPercentile
    dsimp only
    rw [h]
    rfl
  · intro last hlast hjobs
    rw [peerPercentile_eq_key data p last hlast]
    simp [percentileOfKey, peerKeyOf, hjobs]
  · intro last key hlast hkey hcond
    rw [peerPercentile_eq_key data p last hlast]
    unfold percentileOfKey
    rw [hkey]
    dsimp only
    exact if_pos hcond
  · intro last key hlast hkey hlen hpay
    rw [peerPercentile_eq_key data p last hlast]
    unfold percentileOfKey
    rw [hkey]
    dsimp only
    rw [if_neg (by push_neg; exact ⟨hlen, hpay⟩)]
    have he : bisect_right (sortedCohort data last.date key)
          (calculate_snapshot_pay last)
        - bisect_left (sortedCohort data last.date key)
          (calculate_snapshot_pay last)
        = (sortedCohort data last.date key).countP
            (fun v => decide (v = calculate_snapshot_pay last)) := by
      rw [bisect_right_eq_countP, bisect_left_eq_countP, countP_le_split]
      omega
    rw [he, bisect_left_eq_countP]

/-- Witness for C2 at the concrete one-employee dataset (whose
one-member cohort yields no percentile). -/
theorem C2_peer_percentile_spec_witness :
    (sortTimeline wPerson.timeline = [] →
      peerPercentile wData wPerson = none) ∧
    (∀ last, (sortTimeline wPerson.timeline).getLast? = some last →
      last.jobs = [] → peerPercentile wData wPerson = none) ∧
    (∀ last key, (sortTimeline wPerson.timeline).getLast? = some last →
      peerKeyOf last = some key →
      ((sortedCohort wData last.date key).length ≤ 1 ∨
        calculate_snapshot_pay last ≤ 0) →
      peerPercentile wData wPerson = none) ∧
    (∀ last key, (sortTimeline wPerson.timeline).getLast? = some last →
      peerKeyOf last = some key →
      1 < (sortedCohort wData last.date key).length →
      0 < calculate_snapshot_pay last →
      peerPercentile wData wPerson
        = some (((((sortedCohort wData last.date key).countP
              (fun v => decide (v < calculate_snapshot_pay last)) : ℚ)
            + 0.5 * (((sortedCohort wData last.date key).countP
              (fun v => decide (v = calculate_snapshot_pay last)) : ℚ)))
            / ((sortedCohort wData last.date key).length : ℚ)) * 100)) :=
  C2_peer_percentile_spec wData wPerson

/-- C7: any defined percentile lies in `[0, 100]`, and two employees
whose last snapshots share the date, the peer key and the pay receive
the same percentile. -/
theorem C7_percentile_bounds_and_ties (data : Dataset) (p1 p2 : Person)
    (q : ℚ) (last1 last2 : Snapshot) :
    (peerPercentile data p1 = some q → 0 ≤ q ∧ q ≤ 100) ∧
    ((sortTimeline p1.timeline).getLast? = some last1 →
      (sortTimeline p2.timeline).getLast? = some last2 →
      last1.date = last2.date →
      peerKeyOf last1 = peerKeyOf last2 →
      calculate_snapshot_pay last1 = calculate_snapshot_pay last2 →
      peerPercentile data p1 = peerPercentile data p2) := by
  constructor
  · intro h
    rcases hlast : (sortTimeline p1.timeline).getLast? with _ | last
    · unfold peerPercentile at h
      dsimp only at h
      rw [hlast] at h
      simp at h
    · rw [peerPercentile_eq_key data p1 last hlast] at h
      unfold percentileOfKey at h
      rcases hkey : peerKeyOf last with _ | key <;> rw [hkey] at h
      · simp at h
      dsimp only at h
      by_cases hcond : (sortedCohort data last.date key).length ≤ 1 ∨
          calculate_snapshot_pay last ≤ 0
      · rw [if_pos hcond] at h; simp at h
      · rw [if_neg hcond] at h
        push_neg at hcond
        obtain ⟨h1, -⟩ := hcond
        have hq := Option.some_inj.1 h
        set bucket := sortedCohort data last.date key with hbdef
        set pay := calculate_snapshot_pay last with hpdef
        have hble : bisect_left bucket pay ≤ bisect_right bucket pay := by
          rw [hbdef, bisect_left_eq_countP, bisect_right_eq_countP]
          exact List.countP_mono_left (fun v _ hv => by
            simp only [decide_eq_true_eq] at hv ⊢
            exact le_of_lt hv)
        have hbrn : bisect_right bucket pay ≤ bucket.length := by
          rw [hbdef, bisect_right_eq_countP]
          exact List.countP_le_length _
        have hsum : bisect_left bucket pay
            + (bisect_right bucket pay - bisect_left bucket pay)
            ≤ bucket.length := by omega
        have hn : (0 : ℚ) < (bucket.length : ℚ) := by
          exact_mod_cast Nat.lt_of_lt_of_le Nat.zero_lt_one h1.le
        constructor
        · rw [← hq]; positivity
        · rw [← hq, div_mul_eq_mul_div, div_le_iff₀ hn]
          have hcast : ((bisect_left bucket pay : ℚ)
              + ((bisect_right bucket pay
                  - bisect_left bucket pay : ℕ) : ℚ))
              ≤ (bucket.length : ℚ) := by exact_mod_cast hsum
          have hnn : (0 : ℚ)
              ≤ ((bisect_right bucket pay
                  - bisect_left bucket pay : ℕ) : ℚ) := by positivity
          nlinarith
  · intro hl1 hl2 hd hk hp
    rw [peerPercentile_eq_key data p1 last1 hl1,
      peerPercentile_eq_key data p2 last2 hl2, hd, hk, hp]

/-- Witness for C7 at the two-member equal-pay cohort. -/
theorem C7_percentile_bounds_and_ties_witness :
    (peerPercentile w7Data w7PersonA = some 50 → 0 ≤ (50 : ℚ) ∧
      (50 : ℚ) ≤ 100) ∧
    ((sortTimeline w7PersonA.timeline).getLast? = some w7Snap →
      (sortTimeline w7PersonB.timeline).getLast? = some w7Snap →
      w7Snap.date = w7Snap.date →
      peerKeyOf w7Snap = peerKeyOf w7Snap →
      calculate_snapshot_pay w7Snap = calculate_snapshot_pay w7Snap →
      peerPercentile w7Data w7PersonA = peerPercentile w7Data w7PersonB) :=
  C7_percentile_bounds_and_ties w7Data w7PersonA w7PersonB 50 w7Snap w7Snap

/-- One exclusion-walk step from a fully initialised state. -/
lemma exclStep_some (prev started was : Bool) (fed : String)
    (s : Snapshot) :
    exclStep ⟨some prev, some started, was, fed⟩ s
      = ⟨some (srcIsUnclass s.source), some started,
         was || (!prev && srcIsUnclass s.source && started),
         if (!prev && srcIsUnclass s.source && started) = true ∧ fed = ""
           then s.date else fed⟩ := by
  cases prev <;> cases started <;>
    cases hu : srcIsUnclass s.source <;>
    simp [exclStep, hu]

/-- The exclusion walk from a started-classified state: the sticky
flag records whether a transition occurred, and the recorded date is
the first dated transition (unless one was already recorded). -/
lemma exclWalk_from_true :
    ∀ (tl : List Snapshot) (prev was : Bool) (fed : String),
      (tl.foldl exclStep ⟨some prev, some true, was, fed⟩).wasExcluded
        = (was || existsTransitionFrom prev tl) ∧
      (tl.foldl exclStep ⟨some prev, some true, was, fed⟩).firstExclusionDate
        = (if fed = "" then firstDatedTransitionFrom prev tl else fed) := by
  intro tl
  induction tl with
  | nil =>
      intro prev was fed
      refine ⟨by simp [existsTransitionFrom], ?_⟩
      by_cases h : fed = "" <;> simp [firstDatedTransitionFrom, h]
  | cons s rest ih =>
      intro prev was fed
      simp only [List.foldl_cons, exclStep_some]
      obtain ⟨ihw, ihf⟩ := ih (srcIsUnclass s.source)
        (was || (!prev && srcIsUnclass s.source && true))
        (if (!prev && srcIsUnclass s.source && true) = true ∧ fed = ""
          then s.date else fed)
      refine ⟨?_, ?_⟩
      · rw [ihw]
        simp [existsTransitionFrom, Bool.or_assoc]
      · rw [ihf]
        by_cases hfed : fed = ""
        · by_cases hhit : (!prev && srcIsUnclass s.source) = true
          · by_cases hdate : s.date = ""
            · simp [existsTransitionFrom, firstDatedTransitionFrom,
                hfed, hhit, hdate]
            · simp [firstDatedTransitionFrom, hfed, hhit, hdate]
          · simp [firstDatedTransitionFrom, hfed, hhit]
        · simp [hfed]

/-- The exclusion walk from a started-unclassified state never sets
the flag or the date. -/
lemma exclWalk_from_false :
    ∀ (tl : List Snapshot) (prev was : Bool) (fed : String),
      (tl.foldl exclStep ⟨some prev, some false, was, fed⟩).wasExcluded
        = was ∧
      (tl.foldl exclStep
        ⟨some prev, some false, was, fed⟩).firstExclusionDate = fed := by
  intro tl
  induction tl with
  | nil => intro prev was fed; exact ⟨rfl, rfl⟩
  | cons s rest ih =>
      intro prev was fed
      simp only [List.foldl_cons, exclStep_some]
      obtain ⟨ihw, ihf⟩ := ih (srcIsUnclass s.source) was fed
      simpa using ⟨ihw, ihf⟩

/-- The walk's first step from the initial state. -/
lemma exclStep_init (s : Snapshot) :
    exclStep exclInit s
      = ⟨some (srcIsUnclass s.source), some (!srcIsUnclass s.source),
         false, ""⟩ := by
  cases hu : srcIsUnclass s.source <;> simp [exclStep, exclInit, hu]

/-- The final walk state, in terms of the claim-side searches. -/
lemma exclWalk_spec (tl : List Snapshot) :
    (exclWalk tl).wasExcluded
      = (startedClassifiedOf tl && existsTransition tl) ∧
    (exclWalk tl).firstExclusionDate
      = (if startedClassifiedOf tl = true
          then firstDatedTransitionDate tl else "") := by
  cases tl with
  | nil => exact ⟨rfl, rfl⟩
  | cons s rest =>
      unfold exclWalk
      rw [List.foldl_cons, exclStep_init]
      cases hu : srcIsUnclass s.source
      · obtain ⟨hw, hf⟩ := exclWalk_from_true rest false false ""
        simp only [Bool.not_false]
        refine ⟨?_, ?_⟩
        · rw [hw]
          simp [startedClassifiedOf, existsTransition, hu]
        · rw [hf]
          simp [startedClassifiedOf, firstDatedTransitionDate, hu]
      · obtain ⟨hw, hf⟩ := exclWalk_from_false rest true false ""
        simp only [Bool.not_true]
        refine ⟨?_, ?_⟩
        · rw [hw]; simp [startedClassifiedOf, hu]
        · rw [hf]; simp [startedClassifiedOf, hu]

/-- C5 (amended): `wasExcluded`/`exclusionDate` are reported
false/empty unless the last snapshot is unclassified, the first was
classified, and some classified→unclassified transition occurred; and
when they are reported, `exclusionDate` is the date of the first such
transition *that has a date* (empty when no transition is dated) —
a dateless first transition is passed over in favour of a later dated
one. -/
theorem C5_exclusion_gating (tl : List Snapshot) :
    (reportedWasExcluded tl = true ↔
      lastIsUnclass tl = true ∧ startedClassifiedOf tl = true ∧
        existsTransition tl = true) ∧
    (reportedWasExcluded tl = false → reportedExclusionDate tl = "") ∧
    (reportedWasExcluded tl = true →
      reportedExclusionDate tl = firstDatedTransitionDate tl) := by
  obtain ⟨hw, hf⟩ := exclWalk_spec tl
  refine ⟨?_, ?_, ?_⟩
  · unfold reportedWasExcluded
    rw [hw]
    constructor
    · intro h
      simp only [Bool.and_eq_true] at h
      exact ⟨h.2, h.1.1, h.1.2⟩
    · rintro ⟨h1, h2, h3⟩
      simp [h1, h2, h3]
  · intro h
    unfold reportedWasExcluded at h
    simp [reportedExclusionDate, h]
  · intro h
    unfold reportedWasExcluded at h
    unfold reportedExclusionDate
    rw [if_pos h, hf, if_pos]
    rw [hw] at h
    simp only [Bool.and_eq_true] at h
    exact h.1.1

/-- The claim as stated is false: on `c5Timeline` (already ascending,
so the in-place sort leaves it unchanged) the first
classified→unclassified transition has an empty date, yet the emitted
exclusion date is the *second* transition's date, not empty. -/
theorem C5_exclusion_gating_counterexample :
    sortTimeline c5Timeline = c5Timeline ∧
    reportedWasExcluded c5Timeline = true ∧
    firstTransitionDate c5Timeline = some "" ∧
    reportedExclusionDate c5Timeline = "2024-02-01" ∧
    reportedExclusionDate c5Timeline ≠ "" := by decide

/-- Witness for the amended C5 at a dated two-snapshot timeline. -/
theorem C5_exclusion_gating_witness :
    (reportedWasExcluded w5Timeline = true ↔
      lastIsUnclass w5Timeline = true ∧
        startedClassifiedOf w5Timeline = true ∧
        existsTransition w5Timeline = true) ∧
    (reportedWasExcluded w5Timeline = false →
      reportedExclusionDate w5Timeline = "") ∧
    (reportedWasExcluded w5Timeline = true →
      reportedExclusionDate w5Timeline
        = firstDatedTransitionDate w5Timeline) :=
  C5_exclusion_gating w5Timeline

/-- C9 (amended): the run's only mutation of the loaded data is the
initial in-place stable sort of each Timeline by date (line 144): the
stored Timeline is a date-sorted permutation of the loaded sequence
whose elements are exactly the loaded Snapshots, each unchanged; no
later derived computation alters it. -/
theorem C9_timeline_sorted_permutation (tl : List Snapshot) :
    List.Perm (sortTimeline tl) tl ∧
    List.Sorted dateLe (sortTimeline tl) ∧
    (∀ s, s ∈ sortTimeline tl ↔ s ∈ tl) := by
  haveI : IsTotal Snapshot dateLe :=
    ⟨fun a b => by
      rcases le_total a.date b.date with h | h
      · exact Or.inl ((dateLe_iff a b).2 h)
      · exact Or.inr ((dateLe_iff b a).2 h)⟩
  haveI : IsTrans Snapshot dateLe :=
    ⟨fun a b c hab hbc =>
      (dateLe_iff a c).2
        (le_trans ((dateLe_iff a b).1 hab) ((dateLe_iff b c).1 hbc))⟩
  refine ⟨List.perm_insertionSort dateLe tl,
    List.sorted_insertionSort dateLe tl, fun s => ?_⟩
  exact (List.perm_insertionSort dateLe tl).mem_iff

/-- The claim as stated is false: on an out-of-order loaded Timeline
the aggregation's in-place sort (line 144) leaves the employee's
Timeline different from its state at load time. -/
theorem C9_timeline_sorted_permutation_counterexample :
    sortTimeline c9Timeline ≠ c9Timeline := by decide

end SplitData
